import Mathlib

/-!
Verification of the lexical scanner in `scan/scan.go` (package `scan`).

The scanner is embedded shallowly: Go byte strings become `List Nat`
(byte values), the mutable `Scanner` struct becomes a Lean structure
threaded through every helper, and each `for` loop of the Go source
becomes a well-founded recursive function on the measure
`source.length - current`.  Field and function names follow the source;
`Type` and the methods `end` and `match` are renamed (`TokenType`,
`atEnd`, `matchByte`) because those words are reserved in Lean.
-/

set_option maxRecDepth 8000

/-- Lexical category of a token; embeds the Go enumeration `Type` from
`scan.go` (the Go name `Type` is reserved in Lean). -/
inductive TokenType where
  | EOF
  | Newline
  | LeftParen
  | RightParen
  | LeftBracket
  | RightBracket
  | LeftCurly
  | RightCurly
  | LeftAngle
  | RightAngle
  | Assign
  | Comma
  | Dot
  | Colon
  | SemiColon
  | Bang
  | Slash
  | Star
  | Plus
  | Minus
  | Pipe
  | Equals
  | NotEquals
  | GreaterEquals
  | LesserEquals
  | Identifier
  | String
  | Number
  | True
  | False
  | Struct
  | Return
  | Int
  | Double
  | Float
  | Bool
  | For
  | In
  | Let
  | If
  | Else
deriving DecidableEq, Repr, Inhabited

/-- Embeds the Go struct `Token`: kind, 1-based line, and lexeme text
(a Go string, i.e. a byte sequence). -/
structure Token where
  type : TokenType
  line : Nat
  text : List Nat
deriving DecidableEq, Repr, Inhabited

/-- Byte sequence of an ASCII string literal; used to write concrete
sources and lexemes the way the Go code writes string literals. -/
def bytes (s : String) : List Nat := s.data.map Char.toNat

/-- Embeds `keywordOrIdentifier` from `scan.go`: the fixed,
case-sensitive keyword table, defaulting to `Identifier`.  The byte
lists spell the Go string literals of the switch (ASCII). -/
def keywordOrIdentifier (text : List Nat) : TokenType :=
  if text = [115, 116, 114, 117, 99, 116] then .Struct
  else if text = [114, 101, 116, 117, 114, 110] then .Return
  else if text = [105, 110, 116] then .Int
  else if text = [100, 111, 117, 98, 108, 101] then .Double
  else if text = [102, 108, 111, 97, 116] then .Float
  else if text = [98, 111, 111, 108] then .Bool
  else if text = [102, 111, 114] then .For
  else if text = [105, 110] then .In
  else if text = [108, 101, 116] then .Let
  else if text = [105, 102] then .If
  else if text = [101, 108, 115, 101] then .Else
  else if text = [116, 114, 117, 101] then .True
  else if text = [102, 97, 108, 115, 101] then .False
  else .Identifier

/-- Embeds the Go struct `Scanner`: the source buffer, the lexeme start
index, the cursor, the 1-based line counter, and the two output
accumulators. -/
structure Scanner where
  tokens : List Token
  source : List Nat
  start : Nat
  current : Nat
  line : Nat
  errors : List String
deriving DecidableEq, Repr

/-- Embeds `NewScanner`: fresh state over a source buffer. -/
def NewScanner (source : List Nat) : Scanner :=
  { tokens := [], source := source, start := 0, current := 0, line := 1, errors := [] }

/-- Embeds the Go method `end`: `current >= len(source)` (the Go name
`end` is reserved in Lean). -/
def Scanner.atEnd (s : Scanner) : Bool := s.source.length ≤ s.current

/-- Embeds `advance`: the cursor is incremented first, and only then the
end-of-input check is made, so the returned byte is
`source[current-1]` when the incremented cursor is still in bounds and
the zero sentinel otherwise. -/
def Scanner.advance (s : Scanner) : Nat × Scanner :=
  let s' : Scanner := { s with current := s.current + 1 }
  (if s'.atEnd then 0 else s'.source.getD (s'.current - 1) 0, s')

/-- Embeds `peek`: current byte without consuming, zero sentinel at
end-of-input. -/
def Scanner.peek (s : Scanner) : Nat :=
  if s.atEnd then 0 else s.source.getD s.current 0

/-- Embeds `peekNext`: one-ahead byte without consuming, zero sentinel
past the end. -/
def Scanner.peekNext (s : Scanner) : Nat :=
  if s.source.length ≤ s.current + 1 then 0 else s.source.getD (s.current + 1) 0

/-- Embeds the Go method `match` (the name `match` is reserved in
Lean): consume the next byte only if it equals the expected one. -/
def Scanner.matchByte (s : Scanner) (c : Nat) : Bool × Scanner :=
  if s.atEnd then (false, s)
  else if s.source.getD s.current 0 ≠ c then (false, s)
  else (true, { s with current := s.current + 1 })

/-- Embeds `lexeme`: the slice `source[start:current]`. -/
def Scanner.lexeme (s : Scanner) : List Nat :=
  (s.source.drop s.start).take (s.current - s.start)

/-- Embeds `addToken`: append to the token accumulator. -/
def Scanner.addToken (s : Scanner) (token : Token) : Scanner :=
  { s with tokens := s.tokens ++ [token] }

/-- Embeds `newToken`: a token of the given kind and text on the current
line. -/
def Scanner.newToken (s : Scanner) (tokenType : TokenType) (text : List Nat) : Token :=
  { type := tokenType, text := text, line := s.line }

/-- Embeds `err`: append `"<msg> on line <line>"` to the diagnostics. -/
def Scanner.err (s : Scanner) (msg : String) : Scanner :=
  { s with errors := s.errors ++ [msg ++ " on line " ++ toString s.line] }

/-- Embeds `isDigit`. -/
def isDigit (c : Nat) : Bool := decide (48 ≤ c ∧ c ≤ 57)

/-- Embeds `isAlpha`: ASCII letters and underscore. -/
def isAlpha (c : Nat) : Bool :=
  decide ((97 ≤ c ∧ c ≤ 122) ∨ (65 ≤ c ∧ c ≤ 90) ∨ c = 95)

/-- Embeds `isAlphaNumeric`. -/
def isAlphaNumeric (c : Nat) : Bool := isAlpha c || isDigit c

/-- A state whose next byte is not the zero sentinel has an unread
byte; used for the termination measures of the scanning loops. -/
theorem Scanner.lt_of_peek_ne_zero (s : Scanner) (h : s.peek ≠ 0) :
    s.current < s.source.length := by
  by_contra hc
  have hEnd : s.atEnd = true := by simp [Scanner.atEnd]; omega
  simp [Scanner.peek, hEnd] at h

/-- Embeds the loop `for isAlphaNumeric(scanner.peek()) { scanner.advance() }`
inside the Go method `identifier`. -/
def Scanner.identifierLoop (s : Scanner) : Scanner :=
  if isAlphaNumeric s.peek then (s.advance).2.identifierLoop else s
termination_by s.source.length - s.current
decreasing_by
  rename_i h
  simp only [Scanner.advance]
  have hlt : s.current < s.source.length := by
    apply Scanner.lt_of_peek_ne_zero
    intro h0
    rw [h0] at h
    simp [isAlphaNumeric, isAlpha, isDigit] at h
  omega

/-- Embeds the loop `for isDigit(scanner.peek()) { scanner.advance() }`
used twice inside the Go method `numberLiteral`. -/
def Scanner.digitLoop (s : Scanner) : Scanner :=
  if isDigit s.peek then (s.advance).2.digitLoop else s
termination_by s.source.length - s.current
decreasing_by
  rename_i h
  simp only [Scanner.advance]
  have hlt : s.current < s.source.length := by
    apply Scanner.lt_of_peek_ne_zero
    intro h0
    rw [h0] at h
    simp [isDigit] at h
  omega

/-- Embeds the comment-skipping loop
`for scanner.peek() != newline and not scanner.end() { scanner.advance() }`
in the slash case of `scanToken`. -/
def Scanner.commentLoop (s : Scanner) : Scanner :=
  if s.peek ≠ 10 ∧ s.atEnd = false then (s.advance).2.commentLoop else s
termination_by s.source.length - s.current
decreasing_by
  rename_i h
  simp only [Scanner.advance]
  have hlt : s.current < s.source.length := by
    have := h.2
    simp [Scanner.atEnd] at this
    omega
  omega

/-- Embeds the scanning loop of the Go method `stringLiteral`:
`for scanner.peek() != quote and not scanner.end()`, recording an
unterminated-string diagnostic at each interior newline. -/
def Scanner.stringLoop (s : Scanner) : Scanner :=
  if s.peek ≠ 34 ∧ s.atEnd = false then
    (if s.peek = 10 then s.err ("unterminated string") else s).advance.2.stringLoop
  else s
termination_by s.source.length - s.current
decreasing_by
  rename_i h
  have hlt : s.current < s.source.length := by
    have := h.2
    simp [Scanner.atEnd] at this
    omega
  split <;> simp only [Scanner.advance, Scanner.err] <;> omega

/-- Embeds the Go method `identifier`. -/
def Scanner.identifier (s : Scanner) : Scanner :=
  let s1 := s.identifierLoop
  let text := s1.lexeme
  s1.addToken (s1.newToken (keywordOrIdentifier text) text)

/-- Embeds the Go method `numberLiteral`, including the
fractional-part rule: the dot is consumed only when it is immediately
followed by a digit. -/
def Scanner.numberLiteral (s : Scanner) : Scanner :=
  let s1 := s.digitLoop
  let s2 := if s1.peek = 46 ∧ isDigit s1.peekNext then (s1.advance).2.digitLoop else s1
  s2.addToken (s2.newToken .Number s2.lexeme)

/-- Embeds the Go method `stringLiteral`: run the string loop, report an
unterminated string at end-of-input, otherwise consume the closing
quote and emit the bytes strictly between the quotes. -/
def Scanner.stringLiteral (s : Scanner) : Scanner :=
  let s1 := s.stringLoop
  if s1.atEnd then s1.err ("unterminated string")
  else
    let s2 := (s1.advance).2
    let literal := (s2.source.drop (s2.start + 1)).take (s2.current - 1 - (s2.start + 1))
    s2.addToken (s2.newToken .String literal)

/-- Diagnostic text of the unexpected-character error, as produced by
`fmt.Sprintf` with the verb `%c` on the offending byte. -/
def unexpectedChar (c : Nat) : String :=
  "Unexpected character \x27" ++ String.singleton (Char.ofNat c) ++ "\x27"

/-- Embeds the Go method `scanToken`: consume one byte via `advance` and
dispatch on it exactly as the Go `switch` does. -/
def Scanner.scanToken (s0 : Scanner) : Scanner :=
  let c := (s0.advance).1
  let s := (s0.advance).2
  if c = 40 then s.addToken (s.newToken .LeftParen [c])
  else if c = 41 then s.addToken (s.newToken .RightParen [c])
  else if c = 91 then s.addToken (s.newToken .LeftBracket [c])
  else if c = 93 then s.addToken (s.newToken .RightBracket [c])
  else if c = 123 then s.addToken (s.newToken .LeftCurly [c])
  else if c = 125 then s.addToken (s.newToken .RightCurly [c])
  else if c = 60 then
    let m := (s.matchByte 61).1
    let s1 := (s.matchByte 61).2
    if m then s1.addToken (s1.newToken .LesserEquals s1.lexeme)
    else s1.addToken (s1.newToken .LeftAngle [c])
  else if c = 62 then
    let m := (s.matchByte 61).1
    let s1 := (s.matchByte 61).2
    if m then s1.addToken (s1.newToken .GreaterEquals s1.lexeme)
    else s1.addToken (s1.newToken .RightAngle [c])
  else if c = 61 then
    let m := (s.matchByte 61).1
    let s1 := (s.matchByte 61).2
    if m then s1.addToken (s1.newToken .Equals s1.lexeme)
    else s1.addToken (s1.newToken .Assign [c])
  else if c = 33 then
    let m := (s.matchByte 61).1
    let s1 := (s.matchByte 61).2
    if m then s1.addToken (s1.newToken .NotEquals s1.lexeme)
    else s1.addToken (s1.newToken .Bang [c])
  else if c = 44 then s.addToken (s.newToken .Comma [c])
  else if c = 46 then s.addToken (s.newToken .Dot [c])
  else if c = 58 then s.addToken (s.newToken .Colon [c])
  else if c = 59 then s.addToken (s.newToken .SemiColon [c])
  else if c = 47 then
    let m := (s.matchByte 47).1
    let s1 := (s.matchByte 47).2
    if m then s1.commentLoop
    else s1.addToken (s1.newToken .Slash [c])
  else if c = 42 then s.addToken (s.newToken .Star [c])
  else if c = 43 then s.addToken (s.newToken .Plus [c])
  else if c = 45 then s.addToken (s.newToken .Minus [c])
  else if c = 124 then s.addToken (s.newToken .Pipe [c])
  else if c = 34 then s.stringLiteral
  else if c = 32 then s
  else if c = 13 then s
  else if c = 9 then s
  else if c = 10 then
    let s1 := { s with line := s.line + 1 }
    s1.addToken (s1.newToken .Newline [c])
  else if isDigit c then s.numberLiteral
  else if isAlpha c then s.identifier
  else if c ≠ 0 then s.err (unexpectedChar c)
  else s

/-- The keyword table only yields keyword, boolean or identifier kinds. -/
theorem keywordOrIdentifier_mem (text : List Nat) :
    keywordOrIdentifier text ∈ [TokenType.Struct, TokenType.Return, TokenType.Int,
      TokenType.Double, TokenType.Float, TokenType.Bool, TokenType.For, TokenType.In,
      TokenType.Let, TokenType.If, TokenType.Else, TokenType.True, TokenType.False,
      TokenType.Identifier] := by
  unfold keywordOrIdentifier
  by_cases h1 : text = [115, 116, 114, 117, 99, 116]
  · rw [if_pos h1]; decide
  rw [if_neg h1]
  by_cases h2 : text = [114, 101, 116, 117, 114, 110]
  · rw [if_pos h2]; decide
  rw [if_neg h2]
  by_cases h3 : text = [105, 110, 116]
  · rw [if_pos h3]; decide
  rw [if_neg h3]
  by_cases h4 : text = [100, 111, 117, 98, 108, 101]
  · rw [if_pos h4]; decide
  rw [if_neg h4]
  by_cases h5 : text = [102, 108, 111, 97, 116]
  · rw [if_pos h5]; decide
  rw [if_neg h5]
  by_cases h6 : text = [98, 111, 111, 108]
  · rw [if_pos h6]; decide
  rw [if_neg h6]
  by_cases h7 : text = [102, 111, 114]
  · rw [if_pos h7]; decide
  rw [if_neg h7]
  by_cases h8 : text = [105, 110]
  · rw [if_pos h8]; decide
  rw [if_neg h8]
  by_cases h9 : text = [108, 101, 116]
  · rw [if_pos h9]; decide
  rw [if_neg h9]
  by_cases h10 : text = [105, 102]
  · rw [if_pos h10]; decide
  rw [if_neg h10]
  by_cases h11 : text = [101, 108, 115, 101]
  · rw [if_pos h11]; decide
  rw [if_neg h11]
  by_cases h12 : text = [116, 114, 117, 101]
  · rw [if_pos h12]; decide
  rw [if_neg h12]
  by_cases h13 : text = [102, 97, 108, 115, 101]
  · rw [if_pos h13]; decide
  rw [if_neg h13]
  decide

/-- The keyword table never yields the end-of-input or newline kinds. -/
theorem keywordOrIdentifier_ne (text : List Nat) :
    keywordOrIdentifier text ≠ TokenType.EOF ∧ keywordOrIdentifier text ≠ TokenType.Newline := by
  have hm := keywordOrIdentifier_mem text
  constructor <;> intro heq <;> rw [heq] at hm <;> exact absurd hm (by decide)

/-- Structural effect of the identifier loop: it only moves the cursor,
and not beyond the end of the buffer unless it was already there. -/
theorem Scanner.identifierLoop_shape (s : Scanner) :
    ∃ n, s.identifierLoop = { s with current := s.current + n } ∧
      (s.current + n ≤ s.source.length ∨ n = 0) := by
  induction s using Scanner.identifierLoop.induct with
  | case1 s h ih =>
    obtain ⟨n, heq, hb⟩ := ih
    have hlt : s.current < s.source.length := by
      apply Scanner.lt_of_peek_ne_zero
      intro h0
      rw [h0] at h
      simp [isAlphaNumeric, isAlpha, isDigit] at h
    refine ⟨n + 1, ?_, ?_⟩
    · rw [Scanner.identifierLoop, if_pos h]
      simp only [Scanner.advance] at heq ⊢
      rw [heq]
      congr 1
      omega
    · simp only [Scanner.advance] at hb
      omega
  | case2 s h =>
    refine ⟨0, ?_, Or.inr rfl⟩
    rw [Scanner.identifierLoop, if_neg h]
    simp

/-- Structural effect of the digit loop: it only moves the cursor, and
not beyond the end of the buffer unless it was already there. -/
theorem Scanner.digitLoop_shape (s : Scanner) :
    ∃ n, s.digitLoop = { s with current := s.current + n } ∧
      (s.current + n ≤ s.source.length ∨ n = 0) := by
  induction s using Scanner.digitLoop.induct with
  | case1 s h ih =>
    obtain ⟨n, heq, hb⟩ := ih
    have hlt : s.current < s.source.length := by
      apply Scanner.lt_of_peek_ne_zero
      intro h0
      rw [h0] at h
      simp [isDigit] at h
    refine ⟨n + 1, ?_, ?_⟩
    · rw [Scanner.digitLoop, if_pos h]
      simp only [Scanner.advance] at heq ⊢
      rw [heq]
      congr 1
      omega
    · simp only [Scanner.advance] at hb
      omega
  | case2 s h =>
    refine ⟨0, ?_, Or.inr rfl⟩
    rw [Scanner.digitLoop, if_neg h]
    simp

/-- Structural effect of the comment loop: it only moves the cursor,
and not beyond the end of the buffer unless it was already there. -/
theorem Scanner.commentLoop_shape (s : Scanner) :
    ∃ n, s.commentLoop = { s with current := s.current + n } ∧
      (s.current + n ≤ s.source.length ∨ n = 0) := by
  induction s using Scanner.commentLoop.induct with
  | case1 s h ih =>
    obtain ⟨n, heq, hb⟩ := ih
    have hlt : s.current < s.source.length := by
      have := h.2
      simp [Scanner.atEnd] at this
      omega
    refine ⟨n + 1, ?_, ?_⟩
    · rw [Scanner.commentLoop, if_pos h]
      simp only [Scanner.advance] at heq ⊢
      rw [heq]
      congr 1
      omega
    · simp only [Scanner.advance] at hb
      omega
  | case2 s h =>
    refine ⟨0, ?_, Or.inr rfl⟩
    rw [Scanner.commentLoop, if_neg h]
    simp

/-- Structural effect of the string-literal loop: it moves the cursor
(not beyond the end unless already there) and appends diagnostics,
leaving tokens, line, start and source untouched. -/
theorem Scanner.stringLoop_shape (s : Scanner) :
    ∃ n e, s.stringLoop = { s with current := s.current + n, errors := s.errors ++ e } ∧
      (s.current + n ≤ s.source.length ∨ n = 0) := by
  induction s using Scanner.stringLoop.induct with
  | case1 s h ih =>
    have hlt : s.current < s.source.length := by
      have := h.2
      simp [Scanner.atEnd] at this
      omega
    by_cases h10 : s.peek = 10
    · obtain ⟨n, e, heq, hb⟩ := ih
      rw [dif_pos h10] at heq hb
      refine ⟨n + 1, ("unterminated string" ++ " on line " ++ toString s.line) :: e, ?_, ?_⟩
      · rw [Scanner.stringLoop, if_pos h, if_pos h10]
        simp only [Scanner.advance, Scanner.err] at heq ⊢
        rw [heq]
        congr 1
        · omega
        · simp
      · simp only [Scanner.advance, Scanner.err] at hb
        omega
    · obtain ⟨n, e, heq, hb⟩ := ih
      rw [dif_neg h10] at heq hb
      refine ⟨n + 1, e, ?_, ?_⟩
      · rw [Scanner.stringLoop, if_pos h, if_neg h10]
        simp only [Scanner.advance] at heq ⊢
        rw [heq]
        congr 1
        omega
      · simp only [Scanner.advance] at hb
        omega
  | case2 s h =>
    refine ⟨0, [], ?_, Or.inr rfl⟩
    rw [Scanner.stringLoop, if_neg h]
    simp

/-- Structural effect of `matchByte`: the cursor moves by at most one
and nothing else changes. -/
theorem Scanner.matchByte_shape (s : Scanner) (c : Nat) :
    ∃ n, (s.matchByte c).2 = { s with current := s.current + n } ∧
      (s.current + n ≤ s.source.length ∨ n = 0) := by
  unfold Scanner.matchByte
  by_cases h1 : s.atEnd
  · rw [if_pos h1]
    exact ⟨0, by simp, Or.inr rfl⟩
  rw [if_neg h1]
  by_cases h2 : s.source.getD s.current 0 ≠ c
  · rw [if_pos h2]
    exact ⟨0, by simp, Or.inr rfl⟩
  rw [if_neg h2]
  refine ⟨1, rfl, Or.inl ?_⟩
  simp [Scanner.atEnd] at h1
  omega

/-- Structural effect of the Go method `identifier`: the cursor moves
forward and exactly one keyword-or-identifier token on the current
line is appended. -/
theorem Scanner.identifier_shape (s : Scanner) :
    ∃ n t, s.identifier = { s with current := s.current + n, tokens := s.tokens ++ [t] } ∧
      t.line = s.line ∧ t.type ≠ TokenType.EOF ∧ t.type ≠ TokenType.Newline ∧
      (s.current + n ≤ s.source.length ∨ n = 0) := by
  obtain ⟨n, heq, hb⟩ := Scanner.identifierLoop_shape s
  refine ⟨n, Token.mk (keywordOrIdentifier ((s.source.drop s.start).take (s.current + n - s.start))) s.line ((s.source.drop s.start).take (s.current + n - s.start)),
    ?_, rfl, (keywordOrIdentifier_ne _).1, (keywordOrIdentifier_ne _).2, hb⟩
  simp only [Scanner.identifier]
  rw [heq]
  rfl

/-- Structural effect of the Go method `numberLiteral`: the cursor moves
forward and exactly one number token on the current line is appended. -/
theorem Scanner.numberLiteral_shape (s : Scanner) :
    ∃ n t, s.numberLiteral = { s with current := s.current + n, tokens := s.tokens ++ [t] } ∧
      t.line = s.line ∧ t.type = TokenType.Number ∧
      (s.current + n ≤ s.source.length ∨ n = 0) := by
  obtain ⟨n1, heq1, hb1⟩ := Scanner.digitLoop_shape s
  simp only [Scanner.numberLiteral]
  rw [heq1]
  by_cases hc : ({ s with current := s.current + n1 } : Scanner).peek = 46 ∧
      isDigit ({ s with current := s.current + n1 } : Scanner).peekNext
  · rw [if_pos hc]
    have hlt : s.current + n1 < s.source.length := by
      apply Scanner.lt_of_peek_ne_zero ({ s with current := s.current + n1 })
      rw [hc.1]
      decide
    obtain ⟨n2, heq2, hb2⟩ :=
      Scanner.digitLoop_shape (({ s with current := s.current + n1 } : Scanner).advance).2
    simp only [Scanner.advance] at heq2 hb2 ⊢
    rw [heq2]
    have hcur : s.current + n1 + 1 + n2 = s.current + (n1 + 1 + n2) := by omega
    rw [hcur]
    exact ⟨n1 + 1 + n2, _, rfl, rfl, rfl, Or.inl (by omega)⟩
  · rw [if_neg hc]
    exact ⟨n1, _, rfl, rfl, rfl, hb1⟩

/-- Structural effect of the Go method `stringLiteral`: the cursor moves
forward, diagnostics may be appended, and either no token (unterminated
at end-of-input) or exactly one string token on the current line is
appended. -/
theorem Scanner.stringLiteral_shape (s : Scanner) :
    ∃ n e tks, s.stringLiteral = { s with current := s.current + n, errors := s.errors ++ e, tokens := s.tokens ++ tks } ∧
      (tks = [] ∨ ∃ t, tks = [t] ∧ t.line = s.line ∧ t.type = TokenType.String) ∧
      (s.current + n ≤ s.source.length ∨ n = 0) := by
  obtain ⟨n1, e1, heq1, hb1⟩ := Scanner.stringLoop_shape s
  simp only [Scanner.stringLiteral]
  rw [heq1]
  by_cases hend : ({ s with current := s.current + n1, errors := s.errors ++ e1 } : Scanner).atEnd
  · rw [if_pos hend]
    refine ⟨n1, e1 ++ ["unterminated string" ++ " on line " ++ toString s.line], [], ?_, Or.inl rfl, hb1⟩
    simp [Scanner.err]
  · rw [if_neg hend]
    have hlt : s.current + n1 < s.source.length := by
      simp [Scanner.atEnd] at hend
      omega
    have hcur : s.current + n1 + 1 = s.current + (n1 + 1) := by omega
    simp only [Scanner.advance, Scanner.addToken, Scanner.newToken, Scanner.lexeme]
    rw [hcur]
    exact ⟨n1 + 1, e1, [_], rfl, Or.inr ⟨_, rfl, rfl, rfl⟩, Or.inl (by omega)⟩

/-- Combined structural effect of one `scanToken` dispatch: source and
start are untouched, the cursor strictly advances (staying in bounds
when it started in bounds), diagnostics only accumulate, and either no
token is appended and the line is unchanged, or exactly one non-EOF
token carrying the resulting line is appended — with the line counter
bumped exactly when that token is a newline token. -/
def ScanTokenSpec (s r : Scanner) : Prop :=
  r.source = s.source ∧
  r.start = s.start ∧
  s.current < r.current ∧
  (r.current ≤ s.source.length ∨ s.source.length ≤ s.current) ∧
  (∃ e, r.errors = s.errors ++ e) ∧
  ((r.tokens = s.tokens ∧ r.line = s.line) ∨
    (∃ t, r.tokens = s.tokens ++ [t] ∧ t.line = r.line ∧ t.type ≠ TokenType.EOF ∧
      ((t.type = TokenType.Newline ∧ r.line = s.line + 1) ∨
       (t.type ≠ TokenType.Newline ∧ r.line = s.line))))

/-- Leaf case of the dispatch: a cursor move with no output. -/
theorem specOfStatePlain (s : Scanner) (c' : Nat) (hlt : s.current < c')
    (hb : c' ≤ s.source.length ∨ s.source.length ≤ s.current) :
    ScanTokenSpec s { s with current := c' } :=
  ⟨rfl, rfl, hlt, hb, ⟨[], by simp⟩, Or.inl ⟨rfl, rfl⟩⟩

/-- Leaf case of the dispatch: a cursor move plus one ordinary token. -/
theorem specOfAddToken (s : Scanner) (c' : Nat) (hlt : s.current < c')
    (hb : c' ≤ s.source.length ∨ s.source.length ≤ s.current)
    (ty : TokenType) (h1 : ty ≠ TokenType.EOF) (h2 : ty ≠ TokenType.Newline) (text : List Nat) :
    ScanTokenSpec s (({ s with current := c' } : Scanner).addToken
      (({ s with current := c' } : Scanner).newToken ty text)) :=
  ⟨rfl, rfl, hlt, hb, ⟨[], by simp [Scanner.addToken]⟩,
    Or.inr ⟨_, rfl, rfl, h1, Or.inr ⟨h2, rfl⟩⟩⟩

/-- Leaf case of the dispatch: a cursor move plus one diagnostic. -/
theorem specOfErr (s : Scanner) (c' : Nat) (msg : String) (hlt : s.current < c')
    (hb : c' ≤ s.source.length ∨ s.source.length ≤ s.current) :
    ScanTokenSpec s (({ s with current := c' } : Scanner).err msg) :=
  ⟨rfl, rfl, hlt, hb, ⟨[msg ++ " on line " ++ toString s.line], by simp [Scanner.err]⟩,
    Or.inl ⟨rfl, rfl⟩⟩

/-- Leaf case of the dispatch: a cursor move plus accumulated
diagnostics and at most one ordinary token on the current line. -/
theorem specOfBatch (s : Scanner) (c' : Nat) (e : List String) (tks : List Token)
    (hlt : s.current < c') (hb : c' ≤ s.source.length ∨ s.source.length ≤ s.current)
    (htks : tks = [] ∨ ∃ t, tks = [t] ∧ t.line = s.line ∧ t.type ≠ TokenType.EOF ∧
      t.type ≠ TokenType.Newline) :
    ScanTokenSpec s { s with current := c', errors := s.errors ++ e, tokens := s.tokens ++ tks } := by
  refine ⟨rfl, rfl, hlt, hb, ⟨e, rfl⟩, ?_⟩
  rcases htks with h0 | ⟨t, ht, htl, ht1, ht2⟩
  · subst h0
    exact Or.inl ⟨by simp, rfl⟩
  · subst ht
    exact Or.inr ⟨t, rfl, htl, ht1, Or.inr ⟨ht2, rfl⟩⟩

/-- Leaf case of the dispatch: a cursor move plus exactly one ordinary
token on the current line. -/
theorem specOfToken (s : Scanner) (c' : Nat) (t : Token) (hlt : s.current < c')
    (hb : c' ≤ s.source.length ∨ s.source.length ≤ s.current) (htl : t.line = s.line)
    (ht1 : t.type ≠ TokenType.EOF) (ht2 : t.type ≠ TokenType.Newline) :
    ScanTokenSpec s { s with current := c', tokens := s.tokens ++ [t] } :=
  ⟨rfl, rfl, hlt, hb, ⟨[], by simp⟩, Or.inr ⟨t, rfl, htl, ht1, Or.inr ⟨ht2, rfl⟩⟩⟩

/-- Leaf case of the dispatch: the newline case bumps the line and emits
a newline token carrying the bumped line. -/
theorem specOfNewline (s : Scanner) (text : List Nat) :
    ScanTokenSpec s (({ s with current := s.current + 1, line := s.line + 1 } : Scanner).addToken
      (({ s with current := s.current + 1, line := s.line + 1 } : Scanner).newToken
        TokenType.Newline text)) :=
  ⟨rfl, rfl, Nat.lt_succ_self _, by simp only [Scanner.addToken]; omega,
    ⟨[], by simp [Scanner.addToken]⟩,
    Or.inr ⟨_, rfl, rfl, fun hEq => TokenType.noConfusion hEq, Or.inl ⟨rfl, rfl⟩⟩⟩

/-- One `scanToken` dispatch satisfies the combined structural
specification, whichever branch of the switch is taken. -/
theorem Scanner.scanToken_spec (s : Scanner) : ScanTokenSpec s s.scanToken := by
  have hadv2 : (s.advance).2 = { s with current := s.current + 1 } := rfl
  simp only [Scanner.scanToken, hadv2]
  by_cases hB1 : (s.advance).1 = 40
  · rw [if_pos hB1]
    exact specOfAddToken s (s.current + 1) (Nat.lt_succ_self _) (by omega) _ (by decide) (by decide) _
  rw [if_neg hB1]
  by_cases hB2 : (s.advance).1 = 41
  · rw [if_pos hB2]
    exact specOfAddToken s (s.current + 1) (Nat.lt_succ_self _) (by omega) _ (by decide) (by decide) _
  rw [if_neg hB2]
  by_cases hB3 : (s.advance).1 = 91
  · rw [if_pos hB3]
    exact specOfAddToken s (s.current + 1) (Nat.lt_succ_self _) (by omega) _ (by decide) (by decide) _
  rw [if_neg hB3]
  by_cases hB4 : (s.advance).1 = 93
  · rw [if_pos hB4]
    exact specOfAddToken s (s.current + 1) (Nat.lt_succ_self _) (by omega) _ (by decide) (by decide) _
  rw [if_neg hB4]
  by_cases hB5 : (s.advance).1 = 123
  · rw [if_pos hB5]
    exact specOfAddToken s (s.current + 1) (Nat.lt_succ_self _) (by omega) _ (by decide) (by decide) _
  rw [if_neg hB5]
  by_cases hB6 : (s.advance).1 = 125
  · rw [if_pos hB6]
    exact specOfAddToken s (s.current + 1) (Nat.lt_succ_self _) (by omega) _ (by decide) (by decide) _
  rw [if_neg hB6]
  by_cases hB7 : (s.advance).1 = 60
  · rw [if_pos hB7]
    obtain ⟨k, hk, hkb⟩ := Scanner.matchByte_shape ({ s with current := s.current + 1 } : Scanner) 61
    have hk2 : (({ s with current := s.current + 1 } : Scanner).matchByte 61).2 =
        { s with current := s.current + 1 + k } := by rw [hk]
    have hkb2 : s.current + 1 + k ≤ s.source.length ∨ k = 0 := by simpa using hkb
    rw [hk2]
    split
    · exact specOfAddToken s (s.current + 1 + k) (by omega) (by omega) _ (by decide) (by decide) _
    · exact specOfAddToken s (s.current + 1 + k) (by omega) (by omega) _ (by decide) (by decide) _
  rw [if_neg hB7]
  by_cases hB8 : (s.advance).1 = 62
  · rw [if_pos hB8]
    obtain ⟨k, hk, hkb⟩ := Scanner.matchByte_shape ({ s with current := s.current + 1 } : Scanner) 61
    have hk2 : (({ s with current := s.current + 1 } : Scanner).matchByte 61).2 =
        { s with current := s.current + 1 + k } := by rw [hk]
    have hkb2 : s.current + 1 + k ≤ s.source.length ∨ k = 0 := by simpa using hkb
    rw [hk2]
    split
    · exact specOfAddToken s (s.current + 1 + k) (by omega) (by omega) _ (by decide) (by decide) _
    · exact specOfAddToken s (s.current + 1 + k) (by omega) (by omega) _ (by decide) (by decide) _
  rw [if_neg hB8]
  by_cases hB9 : (s.advance).1 = 61
  · rw [if_pos hB9]
    obtain ⟨k, hk, hkb⟩ := Scanner.matchByte_shape ({ s with current := s.current + 1 } : Scanner) 61
    have hk2 : (({ s with current := s.current + 1 } : Scanner).matchByte 61).2 =
        { s with current := s.current + 1 + k } := by rw [hk]
    have hkb2 : s.current + 1 + k ≤ s.source.length ∨ k = 0 := by simpa using hkb
    rw [hk2]
    split
    · exact specOfAddToken s (s.current + 1 + k) (by omega) (by omega) _ (by decide) (by decide) _
    · exact specOfAddToken s (s.current + 1 + k) (by omega) (by omega) _ (by decide) (by decide) _
  rw [if_neg hB9]
  by_cases hB10 : (s.advance).1 = 33
  · rw [if_pos hB10]
    obtain ⟨k, hk, hkb⟩ := Scanner.matchByte_shape ({ s with current := s.current + 1 } : Scanner) 61
    have hk2 : (({ s with current := s.current + 1 } : Scanner).matchByte 61).2 =
        { s with current := s.current + 1 + k } := by rw [hk]
    have hkb2 : s.current + 1 + k ≤ s.source.length ∨ k = 0 := by simpa using hkb
    rw [hk2]
    split
    · exact specOfAddToken s (s.current + 1 + k) (by omega) (by omega) _ (by decide) (by decide) _
    · exact specOfAddToken s (s.current + 1 + k) (by omega) (by omega) _ (by decide) (by decide) _
  rw [if_neg hB10]
  by_cases hB11 : (s.advance).1 = 44
  · rw [if_pos hB11]
    exact specOfAddToken s (s.current + 1) (Nat.lt_succ_self _) (by omega) _ (by decide) (by decide) _
  rw [if_neg hB11]
  by_cases hB12 : (s.advance).1 = 46
  · rw [if_pos hB12]
    exact specOfAddToken s (s.current + 1) (Nat.lt_succ_self _) (by omega) _ (by decide) (by decide) _
  rw [if_neg hB12]
  by_cases hB13 : (s.advance).1 = 58
  · rw [if_pos hB13]
    exact specOfAddToken s (s.current + 1) (Nat.lt_succ_self _) (by omega) _ (by decide) (by decide) _
  rw [if_neg hB13]
  by_cases hB14 : (s.advance).1 = 59
  · rw [if_pos hB14]
    exact specOfAddToken s (s.current + 1) (Nat.lt_succ_self _) (by omega) _ (by decide) (by decide) _
  rw [if_neg hB14]
  by_cases hB15 : (s.advance).1 = 47
  · rw [if_pos hB15]
    obtain ⟨k, hk, hkb⟩ := Scanner.matchByte_shape ({ s with current := s.current + 1 } : Scanner) 47
    have hk2 : (({ s with current := s.current + 1 } : Scanner).matchByte 47).2 =
        { s with current := s.current + 1 + k } := by rw [hk]
    have hkb2 : s.current + 1 + k ≤ s.source.length ∨ k = 0 := by simpa using hkb
    rw [hk2]
    split
    · obtain ⟨n, hn, hnb⟩ := Scanner.commentLoop_shape ({ s with current := s.current + 1 + k } : Scanner)
      have hn2 : ({ s with current := s.current + 1 + k } : Scanner).commentLoop =
          { s with current := s.current + 1 + k + n } := by rw [hn]
      have hnb2 : s.current + 1 + k + n ≤ s.source.length ∨ n = 0 := by simpa using hnb
      rw [hn2]
      exact specOfStatePlain s (s.current + 1 + k + n) (by omega) (by omega)
    · exact specOfAddToken s (s.current + 1 + k) (by omega) (by omega) _ (by decide) (by decide) _
  rw [if_neg hB15]
  by_cases hB16 : (s.advance).1 = 42
  · rw [if_pos hB16]
    exact specOfAddToken s (s.current + 1) (Nat.lt_succ_self _) (by omega) _ (by decide) (by decide) _
  rw [if_neg hB16]
  by_cases hB17 : (s.advance).1 = 43
  · rw [if_pos hB17]
    exact specOfAddToken s (s.current + 1) (Nat.lt_succ_self _) (by omega) _ (by decide) (by decide) _
  rw [if_neg hB17]
  by_cases hB18 : (s.advance).1 = 45
  · rw [if_pos hB18]
    exact specOfAddToken s (s.current + 1) (Nat.lt_succ_self _) (by omega) _ (by decide) (by decide) _
  rw [if_neg hB18]
  by_cases hB19 : (s.advance).1 = 124
  · rw [if_pos hB19]
    exact specOfAddToken s (s.current + 1) (Nat.lt_succ_self _) (by omega) _ (by decide) (by decide) _
  rw [if_neg hB19]
  by_cases hB20 : (s.advance).1 = 34
  · rw [if_pos hB20]
    obtain ⟨n, e, tks, heq, htks, hb⟩ :=
      Scanner.stringLiteral_shape ({ s with current := s.current + 1 } : Scanner)
    have heq2 : ({ s with current := s.current + 1 } : Scanner).stringLiteral =
        { s with current := s.current + 1 + n, errors := s.errors ++ e, tokens := s.tokens ++ tks } := by rw [heq]
    have hb2 : s.current + 1 + n ≤ s.source.length ∨ n = 0 := by simpa using hb
    rw [heq2]
    apply specOfBatch s (s.current + 1 + n) e tks (by omega) (by omega)
    rcases htks with h0 | ⟨t, ht, htl, htt⟩
    · exact Or.inl h0
    · refine Or.inr ⟨t, ht, by simpa using htl, ?_, ?_⟩
      · rw [htt]; decide
      · rw [htt]; decide
  rw [if_neg hB20]
  by_cases hB21 : (s.advance).1 = 32
  · rw [if_pos hB21]
    exact specOfStatePlain s (s.current + 1) (Nat.lt_succ_self _) (by omega)
  rw [if_neg hB21]
  by_cases hB22 : (s.advance).1 = 13
  · rw [if_pos hB22]
    exact specOfStatePlain s (s.current + 1) (Nat.lt_succ_self _) (by omega)
  rw [if_neg hB22]
  by_cases hB23 : (s.advance).1 = 9
  · rw [if_pos hB23]
    exact specOfStatePlain s (s.current + 1) (Nat.lt_succ_self _) (by omega)
  rw [if_neg hB23]
  by_cases hB24 : (s.advance).1 = 10
  · rw [if_pos hB24]
    exact specOfNewline s _
  rw [if_neg hB24]
  by_cases hB25 : isDigit (s.advance).1 = true
  · rw [if_pos hB25]
    obtain ⟨n, t, heq, htl, htt, hb⟩ :=
      Scanner.numberLiteral_shape ({ s with current := s.current + 1 } : Scanner)
    have heq2 : ({ s with current := s.current + 1 } : Scanner).numberLiteral =
        { s with current := s.current + 1 + n, tokens := s.tokens ++ [t] } := by rw [heq]
    have hb2 : s.current + 1 + n ≤ s.source.length ∨ n = 0 := by simpa using hb
    rw [heq2]
    refine specOfToken s (s.current + 1 + n) t (by omega) (by omega) (by simpa using htl) ?_ ?_
    · rw [htt]; decide
    · rw [htt]; decide
  rw [if_neg hB25]
  by_cases hB26 : isAlpha (s.advance).1 = true
  · rw [if_pos hB26]
    obtain ⟨n, t, heq, htl, ht1, ht2, hb⟩ :=
      Scanner.identifier_shape ({ s with current := s.current + 1 } : Scanner)
    have heq2 : ({ s with current := s.current + 1 } : Scanner).identifier =
        { s with current := s.current + 1 + n, tokens := s.tokens ++ [t] } := by rw [heq]
    have hb2 : s.current + 1 + n ≤ s.source.length ∨ n = 0 := by simpa using hb
    rw [heq2]
    exact specOfToken s (s.current + 1 + n) t (by omega) (by omega) (by simpa using htl) ht1 ht2
  rw [if_neg hB26]
  by_cases hB27 : (s.advance).1 ≠ 0
  · rw [if_pos hB27]
    exact specOfErr s (s.current + 1) _ (Nat.lt_succ_self _) (by omega)
  rw [if_neg hB27]
  exact specOfStatePlain s (s.current + 1) (Nat.lt_succ_self _) (by omega)

/-- Embeds the loop `for !scanner.end() { scanner.start = scanner.current;
scanner.scanToken() }` of the Go method `Scan`; it terminates because
every dispatch consumes at least one byte. -/
def Scanner.scanLoop (s : Scanner) : Scanner :=
  if s.atEnd then s
  else (({ s with start := s.current } : Scanner).scanToken).scanLoop
termination_by s.source.length - s.current
decreasing_by
  rename_i h
  have hlt : s.current < s.source.length := by
    simp [Scanner.atEnd] at h
    omega
  obtain ⟨hsrc, -, hcur, -, -⟩ := Scanner.scanToken_spec ({ s with start := s.current } : Scanner)
  simp only at hsrc hcur
  rw [hsrc]
  omega

/-- Embeds the Go method `Scan`: drive the loop to end-of-input, append
the terminal EOF token (empty text, current line) and return both
accumulators. -/
def Scanner.Scan (s : Scanner) : List Token × List String :=
  let s1 := s.scanLoop
  let s2 := s1.addToken { type := TokenType.EOF, line := s1.line, text := [] }
  (s2.tokens, s2.errors)

/-- The scan operation of the specification: construct a scanner over
the source and run its single `Scan` call, as the drivers do. -/
def scan (source : List Nat) : List Token × List String :=
  (NewScanner source).Scan

/-- Number of newline tokens in a token list; the line counter is bumped
exactly when such a token is emitted. -/
def newlineCount (ts : List Token) : Nat :=
  ts.countP (fun t => decide (t.type = TokenType.Newline))

/-- States reachable from a given scanner state by iterations of the
main scanning loop of `Scan` (mark the lexeme start, dispatch once). -/
inductive Scanner.Reaches : Scanner → Scanner → Prop where
  | refl (s : Scanner) : Scanner.Reaches s s
  | step (s t : Scanner) (h : s.atEnd = false)
      (hr : Scanner.Reaches ((({ s with start := s.current } : Scanner)).scanToken) t) :
      Scanner.Reaches s t

/-- The state after the main scanning loop is reachable from its start
state. -/
theorem Scanner.scanLoop_reaches (s : Scanner) : Scanner.Reaches s s.scanLoop := by
  induction s using Scanner.scanLoop.induct with
  | case1 s h =>
    rw [Scanner.scanLoop, if_pos h]
    exact Scanner.Reaches.refl s
  | case2 s h ih =>
    rw [Scanner.scanLoop, if_neg h]
    exact Scanner.Reaches.step s _ (by simpa using h) ih

/-- Along the scanning loop the line counter never decreases, and it
grows by exactly the number of newline tokens emitted. -/
theorem Scanner.reaches_line (s t : Scanner) (h : Scanner.Reaches s t) :
    s.line ≤ t.line ∧ t.line + newlineCount s.tokens = s.line + newlineCount t.tokens := by
  induction h with
  | refl s => exact ⟨le_refl _, rfl⟩
  | step u v hu hru ih =>
    obtain ⟨ihle, iheq⟩ := ih
    obtain ⟨-, -, -, -, -, hdisj⟩ := Scanner.scanToken_spec ({ u with start := u.current } : Scanner)
    rcases hdisj with ⟨htok, hline⟩ | ⟨t0, htok, htl, ht1, hdisj2⟩
    · simp only at htok hline
      rw [htok, hline] at iheq
      rw [hline] at ihle
      exact ⟨ihle, iheq⟩
    · simp only at htok
      rcases hdisj2 with ⟨hnl, hline⟩ | ⟨hnl, hline⟩
      · simp only at hline
        have hcnt : newlineCount ((({ u with start := u.current } : Scanner)).scanToken.tokens) =
            newlineCount u.tokens + 1 := by
          rw [htok]
          simp [newlineCount, List.countP_append, List.countP_cons, hnl]
        exact ⟨by omega, by omega⟩
      · simp only at hline
        have hcnt : newlineCount ((({ u with start := u.current } : Scanner)).scanToken.tokens) =
            newlineCount u.tokens := by
          rw [htok]
          simp [newlineCount, List.countP_append, List.countP_cons, hnl]
        exact ⟨by omega, by omega⟩

/-- Along the scanning loop the cursor invariant
`start ≤ current ≤ length source` is preserved, and the buffer is never
replaced. -/
theorem Scanner.reaches_inv (s t : Scanner) (h : Scanner.Reaches s t) :
    s.start ≤ s.current ∧ s.current ≤ s.source.length →
    t.start ≤ t.current ∧ t.current ≤ t.source.length ∧ t.source = s.source := by
  induction h with
  | refl s =>
    rintro ⟨h1, h2⟩
    exact ⟨h1, h2, rfl⟩
  | step u v hu hru ih =>
    rintro ⟨h1, h2⟩
    have hlt : u.current < u.source.length := by
      simp [Scanner.atEnd] at hu
      omega
    obtain ⟨hsrc, hstart, hcur, hb, -, -⟩ :=
      Scanner.scanToken_spec ({ u with start := u.current } : Scanner)
    simp only at hsrc hstart hcur hb
    obtain ⟨g1, g2, g3⟩ := ih ⟨by omega, by rw [hsrc]; omega⟩
    refine ⟨g1, g2, ?_⟩
    rw [g3]
    exact hsrc

/-- The scanning loop only appends tokens, and none of the appended
tokens is an EOF token. -/
theorem Scanner.scanLoop_tokens (s : Scanner) :
    ∃ new, (s.scanLoop).tokens = s.tokens ++ new ∧ ∀ t ∈ new, t.type ≠ TokenType.EOF := by
  induction s using Scanner.scanLoop.induct with
  | case1 s h =>
    rw [Scanner.scanLoop, if_pos h]
    exact ⟨[], by simp, by simp⟩
  | case2 s h ih =>
    rw [Scanner.scanLoop, if_neg h]
    obtain ⟨new2, hn2, hne2⟩ := ih
    obtain ⟨-, -, -, -, -, hdisj⟩ := Scanner.scanToken_spec ({ s with start := s.current } : Scanner)
    rcases hdisj with ⟨htok, -⟩ | ⟨t0, htok, -, ht1, -⟩
    · simp only at htok
      refine ⟨new2, ?_, hne2⟩
      rw [hn2, htok]
    · simp only at htok
      refine ⟨t0 :: new2, ?_, ?_⟩
      · rw [hn2, htok]
        simp
      · intro t ht
        rcases List.mem_cons.mp ht with h1 | h1
        · subst h1
          exact ht1
        · exact hne2 t h1

/-- One dispatch preserves the per-token line bookkeeping: the line
counter is one more than the newline tokens emitted so far, and every
emitted token's line is one more than the newline tokens up to and
including itself. -/
theorem Scanner.scanToken_lineInv (s : Scanner)
    (h1 : s.line = 1 + newlineCount s.tokens)
    (h2 : ∀ i, i < s.tokens.length →
      (s.tokens.getD i default).line = 1 + newlineCount (s.tokens.take (i + 1))) :
    (s.scanToken).line = 1 + newlineCount (s.scanToken).tokens ∧
    ∀ i, i < (s.scanToken).tokens.length →
      ((s.scanToken).tokens.getD i default).line =
        1 + newlineCount ((s.scanToken).tokens.take (i + 1)) := by
  obtain ⟨-, -, -, -, -, hdisj⟩ := Scanner.scanToken_spec s
  rcases hdisj with ⟨htok, hline⟩ | ⟨t0, htok, htl, -, hdisj2⟩
  · rw [htok, hline]
    exact ⟨h1, h2⟩
  · have hstep : (s.scanToken).line = 1 + newlineCount (s.tokens ++ [t0]) := by
      rcases hdisj2 with ⟨hnl, hline⟩ | ⟨hnl, hline⟩
      · have hcnt : newlineCount (s.tokens ++ [t0]) = newlineCount s.tokens + 1 := by
          simp [newlineCount, List.countP_append, List.countP_cons, hnl]
        omega
      · have hcnt : newlineCount (s.tokens ++ [t0]) = newlineCount s.tokens := by
          simp [newlineCount, List.countP_append, List.countP_cons, hnl]
        omega
    refine ⟨by rw [htok]; exact hstep, ?_⟩
    intro i hi
    rw [htok] at hi ⊢
    by_cases hilt : i < s.tokens.length
    · have hget : (s.tokens ++ [t0]).getD i default = s.tokens.getD i default := by
        rw [List.getD_eq_getElem?_getD, List.getD_eq_getElem?_getD,
          List.getElem?_append_left hilt]
      have htake : (s.tokens ++ [t0]).take (i + 1) = s.tokens.take (i + 1) := by
        rw [List.take_append_of_le_length]
        omega
      rw [hget, htake]
      exact h2 i hilt
    · have hieq : i = s.tokens.length := by
        simp at hi
        omega
      subst hieq
      have hget : (s.tokens ++ [t0]).getD s.tokens.length default = t0 := by
        rw [List.getD_eq_getElem?_getD, List.getElem?_append_right (le_refl _)]
        simp
      have htake : (s.tokens ++ [t0]).take (s.tokens.length + 1) = s.tokens ++ [t0] := by
        apply List.take_of_length_le
        simp
      rw [hget, htake, htl]
      exact hstep

/-- The whole scanning loop preserves the per-token line bookkeeping. -/
theorem Scanner.scanLoop_lineInv (s : Scanner)
    (h1 : s.line = 1 + newlineCount s.tokens)
    (h2 : ∀ i, i < s.tokens.length →
      (s.tokens.getD i default).line = 1 + newlineCount (s.tokens.take (i + 1))) :
    (s.scanLoop).line = 1 + newlineCount (s.scanLoop).tokens ∧
    ∀ i, i < (s.scanLoop).tokens.length →
      ((s.scanLoop).tokens.getD i default).line =
        1 + newlineCount ((s.scanLoop).tokens.take (i + 1)) := by
  induction s using Scanner.scanLoop.induct with
  | case1 s h =>
    rw [Scanner.scanLoop, if_pos h]
    exact ⟨h1, h2⟩
  | case2 s h ih =>
    rw [Scanner.scanLoop, if_neg h]
    have hx := Scanner.scanToken_lineInv ({ s with start := s.current } : Scanner) h1 h2
    exact ih hx.1 hx.2

/-- Exact behaviour of the string-literal loop when a closing quote
exists: the cursor stops on the first quote at distance `k`, and exactly
one unterminated-string diagnostic (on the entry line) is recorded per
newline byte strictly between the cursor and that quote. -/
theorem Scanner.stringLoop_spec (k : Nat) (s : Scanner)
    (hfirst : ∀ m, m < k → s.source.getD (s.current + m) 0 ≠ 34)
    (hk : s.current + k < s.source.length)
    (hq : s.source.getD (s.current + k) 0 = 34) :
    s.stringLoop = { s with current := s.current + k, errors := s.errors ++ List.replicate (((s.source.drop s.current).take k).count 10) ("unterminated string" ++ " on line " ++ toString s.line) } := by
  induction k generalizing s with
  | zero =>
    have hcur : s.current < s.source.length := by omega
    have hend : s.atEnd = false := by
      simp [Scanner.atEnd]
      omega
    have hpeek : s.peek = 34 := by
      simp [Scanner.peek, hend]
      simpa using hq
    rw [Scanner.stringLoop, if_neg (by simp [hpeek])]
    simp
  | succ k ih =>
    have hcur : s.current < s.source.length := by omega
    have hend : s.atEnd = false := by
      simp [Scanner.atEnd]
      omega
    have hpeek : s.peek = s.source.getD s.current 0 := by
      simp [Scanner.peek, hend]
    have hpne : s.peek ≠ 34 := by
      rw [hpeek]
      simpa using hfirst 0 (by omega)
    have hhead : s.source.drop s.current = s.source.getD s.current 0 :: s.source.drop (s.current + 1) := by
      rw [List.drop_eq_getElem_cons hcur]
      congr 1
      exact (List.getD_eq_getElem _ _ hcur).symm
    have harr1 : ∀ m : Nat, s.current + 1 + m = s.current + (m + 1) := fun m => by omega
    rw [Scanner.stringLoop, if_pos ⟨hpne, hend⟩]
    by_cases h10 : s.peek = 10
    · rw [if_pos h10]
      have h10x : s.source[s.current]?.getD 0 = 10 := by
        rw [← List.getD_eq_getElem?_getD, ← hpeek]
        exact h10
      have hs2 : ((s.err ("unterminated string")).advance).2 = { s with current := s.current + 1, errors := s.errors ++ ["unterminated string" ++ " on line " ++ toString s.line] } := rfl
      rw [hs2]
      have hrec := ih ({ s with current := s.current + 1, errors := s.errors ++ ["unterminated string" ++ " on line " ++ toString s.line] } : Scanner)
        (by intro m hm; show s.source.getD (s.current + 1 + m) 0 ≠ 34; rw [harr1 m]; exact hfirst (m + 1) (by omega))
        (by show s.current + 1 + k < s.source.length; omega)
        (by show s.source.getD (s.current + 1 + k) 0 = 34; rw [harr1 k]; exact hq)
      have hflat : ({ s with current := s.current + 1, errors := s.errors ++ ["unterminated string" ++ " on line " ++ toString s.line] } : Scanner).stringLoop = { s with current := s.current + 1 + k, errors := (s.errors ++ ["unterminated string" ++ " on line " ++ toString s.line]) ++ List.replicate (((s.source.drop (s.current + 1)).take k).count 10) ("unterminated string" ++ " on line " ++ toString s.line) } := by rw [hrec]
      rw [hflat]
      have hc : ((s.source.drop s.current).take (k + 1)).count 10 = ((s.source.drop (s.current + 1)).take k).count 10 + 1 := by
        rw [hhead, List.take_succ_cons, List.count_cons]
        simp [h10x]
      congr 1
      · omega
      · rw [hc, List.replicate_succ]
        simp
    · rw [if_neg h10]
      have h10x : ¬ s.source[s.current]?.getD 0 = 10 := by
        rw [← List.getD_eq_getElem?_getD, ← hpeek]
        exact h10
      have hs2 : (s.advance).2 = { s with current := s.current + 1 } := rfl
      rw [hs2]
      have hrec := ih ({ s with current := s.current + 1 } : Scanner)
        (by intro m hm; show s.source.getD (s.current + 1 + m) 0 ≠ 34; rw [harr1 m]; exact hfirst (m + 1) (by omega))
        (by show s.current + 1 + k < s.source.length; omega)
        (by show s.source.getD (s.current + 1 + k) 0 = 34; rw [harr1 k]; exact hq)
      have hflat : ({ s with current := s.current + 1 } : Scanner).stringLoop = { s with current := s.current + 1 + k, errors := s.errors ++ List.replicate (((s.source.drop (s.current + 1)).take k).count 10) ("unterminated string" ++ " on line " ++ toString s.line) } := by rw [hrec]
      rw [hflat]
      have hc : ((s.source.drop s.current).take (k + 1)).count 10 = ((s.source.drop (s.current + 1)).take k).count 10 := by
        rw [hhead, List.take_succ_cons, List.count_cons]
        simp [h10x]
      congr 1
      · omega
      · rw [hc]

/-- Claim C1: refuted by the code (code bug).  With exactly one unread
byte (`current < length source`), `advance` returns the zero sentinel
instead of that byte, because it increments the cursor before checking
for end-of-input; and invoked at end-of-input it moves the cursor past
the end (from 1 to 2 on a one-byte buffer).  The first conjunct
evaluates `advance` on a one-byte source at cursor 0, the second at
cursor 1 (= length). -/
theorem advance_sentinel_on_last_byte :
    (NewScanner [97]).advance = (0, { NewScanner [97] with current := 1 }) ∧
    (({ NewScanner [97] with current := 1 } : Scanner).advance).2.current = 2 := by
  decide

/-- Claim C2: refuted by the code (code bug).  Scanning `"a >= 5"`
yields only `Identifier "a"`, `GreaterEquals ">="` and `EndOfInput`:
the final byte `5` is read back as the zero sentinel by `advance`
(which increments before its end check) and is silently dropped, so no
`NumberLiteral "5"` token is produced. -/
theorem scan_drops_final_number_token :
    scan (bytes "a >= 5") =
      ([Token.mk TokenType.Identifier 1 [97], Token.mk TokenType.GreaterEquals 1 [62, 61],
        Token.mk TokenType.EOF 1 []], []) := by
  simp [scan, Scanner.Scan, Scanner.scanLoop, Scanner.scanToken, Scanner.identifier,
    Scanner.identifierLoop, Scanner.numberLiteral, Scanner.digitLoop, Scanner.commentLoop,
    Scanner.stringLiteral, Scanner.stringLoop, Scanner.advance, Scanner.matchByte, Scanner.peek,
    Scanner.peekNext, Scanner.atEnd, Scanner.lexeme, Scanner.addToken, Scanner.newToken,
    Scanner.err, NewScanner, isDigit, isAlpha, isAlphaNumeric, keywordOrIdentifier,
    unexpectedChar, bytes]

/-- Claim C3: refuted by the code (code bug).  The number sub-scan does
leave a trailing dot unconsumed, but scanning `"3."` yields only
`NumberLiteral "3"` and `EndOfInput`: when the next dispatch cycle
reads the dot — the final byte — `advance` returns the zero sentinel
instead of the dot, so no `Dot` token is ever emitted. -/
theorem scan_drops_final_dot_token :
    scan (bytes "3.") =
      ([Token.mk TokenType.Number 1 [51], Token.mk TokenType.EOF 1 []], []) := by
  simp [scan, Scanner.Scan, Scanner.scanLoop, Scanner.scanToken, Scanner.identifier,
    Scanner.identifierLoop, Scanner.numberLiteral, Scanner.digitLoop, Scanner.commentLoop,
    Scanner.stringLiteral, Scanner.stringLoop, Scanner.advance, Scanner.matchByte, Scanner.peek,
    Scanner.peekNext, Scanner.atEnd, Scanner.lexeme, Scanner.addToken, Scanner.newToken,
    Scanner.err, NewScanner, isDigit, isAlpha, isAlphaNumeric, keywordOrIdentifier,
    unexpectedChar, bytes]

/-- Claim C6: refuted by the code (code bug).  An unmatched byte that is
the final byte of the input produces no diagnostic at all: scanning
`"$"` returns empty diagnostics, because `advance` hands the dispatch
the zero sentinel instead of the dollar byte.  The second conjunct
shows the claimed behaviour does occur when the bad byte is not final:
scanning `"$ "` records exactly the claimed message. -/
theorem scan_final_unexpected_byte_silent :
    scan (bytes "$") = ([Token.mk TokenType.EOF 1 []], []) ∧
    scan (bytes "$ ") =
      ([Token.mk TokenType.EOF 1 []], ["Unexpected character \x27$\x27 on line 1"]) := by
  constructor <;>
  · simp [scan, Scanner.Scan, Scanner.scanLoop, Scanner.scanToken, Scanner.identifier,
      Scanner.identifierLoop, Scanner.numberLiteral, Scanner.digitLoop, Scanner.commentLoop,
      Scanner.stringLiteral, Scanner.stringLoop, Scanner.advance, Scanner.matchByte, Scanner.peek,
      Scanner.peekNext, Scanner.atEnd, Scanner.lexeme, Scanner.addToken, Scanner.newToken,
      Scanner.err, NewScanner, isDigit, isAlpha, isAlphaNumeric, keywordOrIdentifier,
      unexpectedChar, bytes]
    all_goals decide

/-- Claim C4, counterexample: the input is the five bytes
`"a\nb"` wrapped in double quotes; it contains exactly one newline
byte, the scanning loop consumes the whole input (cursor 5 = length),
yet the final line counter is still 1 — the newline consumed inside the
string-literal sub-scan never increments the counter, refuting
"increments exactly once for every consumed newline byte". -/
theorem line_counter_misses_string_newline :
    (bytes "\x22a\nb\x22").count 10 = 1 ∧
    (NewScanner (bytes "\x22a\nb\x22")).scanLoop.current = 5 ∧
    (NewScanner (bytes "\x22a\nb\x22")).scanLoop.line = 1 := by
  refine ⟨by decide, ?_, ?_⟩ <;>
    simp [Scanner.Scan, Scanner.scanLoop, Scanner.scanToken, Scanner.identifier,
      Scanner.identifierLoop, Scanner.numberLiteral, Scanner.digitLoop, Scanner.commentLoop,
      Scanner.stringLiteral, Scanner.stringLoop, Scanner.advance, Scanner.matchByte, Scanner.peek,
      Scanner.peekNext, Scanner.atEnd, Scanner.lexeme, Scanner.addToken, Scanner.newToken,
      Scanner.err, NewScanner, isDigit, isAlpha, isAlphaNumeric, keywordOrIdentifier,
      unexpectedChar, bytes]

/-- Claim C5, counterexample: scanning `"a\nb"`.  The `Newline` token is
produced from the newline byte at index 1 and no newline byte lies
strictly before index 1 (second conjunct), so the claim demands line
1 + 0 = 1 for it; the scanner stamps it with line 2 (the counter is
incremented before the token is created).  The EOF token is likewise
stamped 2. -/
theorem newline_token_line_off_by_one :
    scan (bytes "a\nb") =
      ([Token.mk TokenType.Identifier 1 [97], Token.mk TokenType.Newline 2 [10],
        Token.mk TokenType.EOF 2 []], []) ∧
    ((bytes "a\nb").take 1).count 10 = 0 := by
  refine ⟨?_, by decide⟩
  simp [scan, Scanner.Scan, Scanner.scanLoop, Scanner.scanToken, Scanner.identifier,
    Scanner.identifierLoop, Scanner.numberLiteral, Scanner.digitLoop, Scanner.commentLoop,
    Scanner.stringLiteral, Scanner.stringLoop, Scanner.advance, Scanner.matchByte, Scanner.peek,
    Scanner.peekNext, Scanner.atEnd, Scanner.lexeme, Scanner.addToken, Scanner.newToken,
    Scanner.err, NewScanner, isDigit, isAlpha, isAlphaNumeric, keywordOrIdentifier,
    unexpectedChar, bytes]

/-- Claim C4, amended: throughout every scan the line counter is
monotonically non-decreasing, and it is incremented exactly once per
newline byte consumed by the main dispatch (each such byte emits one
`Newline` token): between any two states of the scanning loop the
counter grows by exactly the number of `Newline` tokens emitted.
Newline bytes consumed inside the string-literal sub-scan, or a final
newline byte read back as the zero sentinel, do not increment it. -/
theorem line_counter_monotone_accounting (s t : Scanner) (h : Scanner.Reaches s t) :
    s.line ≤ t.line ∧
    t.line + newlineCount s.tokens = s.line + newlineCount t.tokens :=
  Scanner.reaches_line s t h

/-- Claim C4, witness: one loop iteration over the two-byte source
`"\na"` starting from a fresh scanner. -/
theorem line_counter_monotone_accounting_witness :
    Scanner.Reaches (NewScanner [10, 97])
      ((({ NewScanner [10, 97] with start := (NewScanner [10, 97]).current } : Scanner)).scanToken) ∧
    (NewScanner [10, 97]).line ≤
      ((({ NewScanner [10, 97] with start := (NewScanner [10, 97]).current } : Scanner)).scanToken).line ∧
    ((({ NewScanner [10, 97] with start := (NewScanner [10, 97]).current } : Scanner)).scanToken).line +
        newlineCount (NewScanner [10, 97]).tokens =
      (NewScanner [10, 97]).line +
        newlineCount ((({ NewScanner [10, 97] with start := (NewScanner [10, 97]).current } : Scanner)).scanToken).tokens := by
  have hr : Scanner.Reaches (NewScanner [10, 97])
      ((({ NewScanner [10, 97] with start := (NewScanner [10, 97]).current } : Scanner)).scanToken) :=
    Scanner.Reaches.step _ _ (by decide) (Scanner.Reaches.refl _)
  obtain ⟨h1, h2⟩ := line_counter_monotone_accounting _ _ hr
  exact ⟨hr, h1, h2⟩

/-- Appending one token whose line is one more than the newline-token
count up to and including itself preserves the per-token line
bookkeeping. -/
theorem lineInv_append (ts : List Token) (t0 : Token)
    (h2 : ∀ i, i < ts.length →
      (ts.getD i default).line = 1 + newlineCount (ts.take (i + 1)))
    (ht : t0.line = 1 + newlineCount (ts ++ [t0])) :
    ∀ i, i < (ts ++ [t0]).length →
      ((ts ++ [t0]).getD i default).line = 1 + newlineCount ((ts ++ [t0]).take (i + 1)) := by
  intro i hi
  by_cases hilt : i < ts.length
  · have hget : (ts ++ [t0]).getD i default = ts.getD i default := by
      rw [List.getD_eq_getElem?_getD, List.getD_eq_getElem?_getD, List.getElem?_append_left hilt]
    have htake : (ts ++ [t0]).take (i + 1) = ts.take (i + 1) := by
      rw [List.take_append_of_le_length]
      omega
    rw [hget, htake]
    exact h2 i hilt
  · have hieq : i = ts.length := by
      simp at hi
      omega
    subst hieq
    have hget : (ts ++ [t0]).getD ts.length default = t0 := by
      rw [List.getD_eq_getElem?_getD, List.getElem?_append_right (le_refl _)]
      simp
    have htake : (ts ++ [t0]).take (ts.length + 1) = ts ++ [t0] := by
      apply List.take_of_length_le
      simp
    rw [hget, htake]
    exact ht

/-- Claim C5, amended: every token returned by `scan` carries a line
number equal to 1 plus the number of `Newline` tokens at or before it
in the returned sequence (for a `Newline` token this count includes the
token itself; the original claim's count of newline bytes before the
token's start position differs for `Newline` tokens themselves and for
newline bytes inside string literals). -/
theorem token_line_eq_newline_tokens (src : List Nat) (i : Nat)
    (h : i < (scan src).1.length) :
    ((scan src).1.getD i default).line = 1 + newlineCount ((scan src).1.take (i + 1)) := by
  have hinv := Scanner.scanLoop_lineInv (NewScanner src)
    (by simp [NewScanner, newlineCount]) (by intro j hj; simp [NewScanner] at hj)
  have hscan : (scan src).1 =
      (NewScanner src).scanLoop.tokens ++
        [Token.mk TokenType.EOF ((NewScanner src).scanLoop.line) []] := rfl
  rw [hscan] at h ⊢
  have hcnt : newlineCount ((NewScanner src).scanLoop.tokens ++
      [Token.mk TokenType.EOF ((NewScanner src).scanLoop.line) []]) =
      newlineCount (NewScanner src).scanLoop.tokens := by
    simp [newlineCount, List.countP_append, List.countP_cons]
  have hEOF : (Token.mk TokenType.EOF ((NewScanner src).scanLoop.line) []).line =
      1 + newlineCount ((NewScanner src).scanLoop.tokens ++
        [Token.mk TokenType.EOF ((NewScanner src).scanLoop.line) []]) := by
    rw [hcnt]
    simpa using hinv.1
  exact lineInv_append _ _ hinv.2 hEOF i h

/-- Claim C5, witness: the second token of `scan "a\nb"` is the newline
token; its line is 1 plus the one newline token at or before index 1. -/
theorem token_line_eq_newline_tokens_witness :
    1 < (scan (bytes "a\nb")).1.length ∧
    ((scan (bytes "a\nb")).1.getD 1 default).line =
      1 + newlineCount ((scan (bytes "a\nb")).1.take 2) := by
  have hlen : 1 < (scan (bytes "a\nb")).1.length := by
    simp [scan, Scanner.Scan, Scanner.scanLoop, Scanner.scanToken, Scanner.identifier,
      Scanner.identifierLoop, Scanner.numberLiteral, Scanner.digitLoop, Scanner.commentLoop,
      Scanner.stringLiteral, Scanner.stringLoop, Scanner.advance, Scanner.matchByte, Scanner.peek,
      Scanner.peekNext, Scanner.atEnd, Scanner.lexeme, Scanner.addToken, Scanner.newToken,
      Scanner.err, NewScanner, isDigit, isAlpha, isAlphaNumeric, keywordOrIdentifier,
      unexpectedChar, bytes]
  exact ⟨hlen, token_line_eq_newline_tokens (bytes "a\nb") 1 hlen⟩

/-- Claim C7: confirmed.  For every input, `scan` terminates (the Lean
embedding is a total function whose loops are well-founded on the
unread-byte count, mirroring that every dispatch consumes at least one
byte), the returned token sequence is non-empty, its last element is
the EOF token, and no EOF token occurs before that last position. -/
theorem scan_final_eof (src : List Nat) :
    ∃ ts l, (scan src).1 = ts ++ [Token.mk TokenType.EOF l []] ∧
      ∀ t ∈ ts, t.type ≠ TokenType.EOF := by
  obtain ⟨new, hn, hne⟩ := Scanner.scanLoop_tokens (NewScanner src)
  refine ⟨(NewScanner src).scanLoop.tokens, (NewScanner src).scanLoop.line, rfl, ?_⟩
  intro t ht
  rw [hn] at ht
  simp only [NewScanner, List.nil_append] at ht
  exact hne t ht

/-- Claim C9: confirmed.  Every state reached by the scanning loop from
a fresh scanner satisfies `start ≤ current ≤ length source` (and `0 ≤
start` holds trivially for naturals), and the buffer is never replaced;
together with the in-code guards of the helpers this means no helper
ever indexes the source out of range or leaves the cursor beyond the
end. -/
theorem scan_cursor_bounds (src : List Nat) (t : Scanner)
    (h : Scanner.Reaches (NewScanner src) t) :
    t.start ≤ t.current ∧ t.current ≤ t.source.length ∧ t.source = src := by
  have := Scanner.reaches_inv (NewScanner src) t h ⟨le_refl 0, by simp [NewScanner]⟩
  exact this

/-- Claim C9, witness: one loop iteration over the one-byte source
`"("` starting from a fresh scanner. -/
theorem scan_cursor_bounds_witness :
    Scanner.Reaches (NewScanner [40])
      ((({ NewScanner [40] with start := (NewScanner [40]).current } : Scanner)).scanToken) ∧
    ((({ NewScanner [40] with start := (NewScanner [40]).current } : Scanner)).scanToken).start ≤
      ((({ NewScanner [40] with start := (NewScanner [40]).current } : Scanner)).scanToken).current ∧
    ((({ NewScanner [40] with start := (NewScanner [40]).current } : Scanner)).scanToken).current ≤
      ((({ NewScanner [40] with start := (NewScanner [40]).current } : Scanner)).scanToken).source.length ∧
    ((({ NewScanner [40] with start := (NewScanner [40]).current } : Scanner)).scanToken).source = [40] := by
  have hr : Scanner.Reaches (NewScanner [40])
      ((({ NewScanner [40] with start := (NewScanner [40]).current } : Scanner)).scanToken) :=
    Scanner.Reaches.step _ _ (by decide) (Scanner.Reaches.refl _)
  obtain ⟨h1, h2, h3⟩ := scan_cursor_bounds [40] _ hr
  exact ⟨hr, h1, h2, h3⟩

/-- Claim C10: confirmed.  When the byte at the cursor is a literal zero
byte, the dispatch consumes exactly that byte and does nothing else: no
token is emitted, no diagnostic is recorded, and scanning resumes at
the immediately following byte — an in-source NUL is indistinguishable
from the end-of-input sentinel and is never reported as an unexpected
character. -/
theorem scanToken_nul_silent (s : Scanner) (_h : s.current < s.source.length)
    (h0 : s.source.getD s.current 0 = 0) :
    s.scanToken = { s with current := s.current + 1 } := by
  have hadv2 : (s.advance).2 = { s with current := s.current + 1 } := rfl
  have hc : (s.advance).1 = 0 := by
    simp only [Scanner.advance]
    split
    · rfl
    · simpa using h0
  simp only [Scanner.scanToken, hadv2, hc]
  simp [isDigit, isAlpha]

/-- Claim C10, witness: a NUL byte at the start of the two-byte source
`"\x00a"` is consumed silently. -/
theorem scanToken_nul_silent_witness :
    (Scanner.mk [] [0, 97] 0 0 1 []).current < (Scanner.mk [] [0, 97] 0 0 1 []).source.length ∧
    (Scanner.mk [] [0, 97] 0 0 1 []).source.getD (Scanner.mk [] [0, 97] 0 0 1 []).current 0 = 0 ∧
    (Scanner.mk [] [0, 97] 0 0 1 []).scanToken = Scanner.mk [] [0, 97] 0 1 1 [] := by
  refine ⟨by decide, by decide, ?_⟩
  have h := scanToken_nul_silent (Scanner.mk [] [0, 97] 0 0 1 []) (by decide) (by decide)
  rw [h]

/-- Exact behaviour of the string-literal loop when no closing quote
remains: the loop consumes every remaining byte up to end-of-input,
recording exactly one unterminated-string diagnostic (on the entry
line) per newline byte among them. -/
theorem Scanner.stringLoop_noquote (n : Nat) : ∀ s : Scanner, s.source.length - s.current = n → s.current ≤ s.source.length → (∀ m, m < s.source.length - s.current → s.source.getD (s.current + m) 0 ≠ 34) → s.stringLoop = { s with current := s.source.length, errors := s.errors ++ List.replicate ((s.source.drop s.current).count 10) ("unterminated string" ++ " on line " ++ toString s.line) } := by
  induction n with
  | zero =>
    intro s hgen hle hnq
    have hcur : s.source.length = s.current := by omega
    have hend : s.atEnd = true := by
      simp [Scanner.atEnd]
      omega
    have hdrop : s.source.drop s.current = [] := by
      apply List.drop_eq_nil_of_le
      omega
    rw [Scanner.stringLoop, if_neg (by simp [hend])]
    rw [hcur]
    simp [hdrop]
  | succ k ih =>
    intro s hgen hle hnq
    have hcur : s.current < s.source.length := by omega
    have hend : s.atEnd = false := by
      simp [Scanner.atEnd]
      omega
    have hpeek : s.peek = s.source.getD s.current 0 := by
      simp [Scanner.peek, hend]
    have hpne : s.peek ≠ 34 := by
      rw [hpeek]
      simpa using hnq 0 (by omega)
    have hhead : s.source.drop s.current = s.source.getD s.current 0 :: s.source.drop (s.current + 1) := by
      rw [List.drop_eq_getElem_cons hcur]
      congr 1
      exact (List.getD_eq_getElem _ _ hcur).symm
    have harr1 : ∀ m : Nat, s.current + 1 + m = s.current + (m + 1) := fun m => by omega
    rw [Scanner.stringLoop, if_pos ⟨hpne, hend⟩]
    by_cases h10 : s.peek = 10
    · rw [if_pos h10]
      have h10x : s.source[s.current]?.getD 0 = 10 := by
        rw [← List.getD_eq_getElem?_getD, ← hpeek]
        exact h10
      have hs2 : ((s.err ("unterminated string")).advance).2 = { s with current := s.current + 1, errors := s.errors ++ ["unterminated string" ++ " on line " ++ toString s.line] } := rfl
      rw [hs2]
      have hrec := ih ({ s with current := s.current + 1, errors := s.errors ++ ["unterminated string" ++ " on line " ++ toString s.line] } : Scanner)
        (by show s.source.length - (s.current + 1) = k; omega)
        (by show s.current + 1 ≤ s.source.length; omega)
        (by intro m hm
            have hm2 : m < s.source.length - (s.current + 1) := hm
            show s.source.getD (s.current + 1 + m) 0 ≠ 34
            rw [harr1 m]
            exact hnq (m + 1) (by omega))
      have hflat : ({ s with current := s.current + 1, errors := s.errors ++ ["unterminated string" ++ " on line " ++ toString s.line] } : Scanner).stringLoop = { s with current := s.source.length, errors := (s.errors ++ ["unterminated string" ++ " on line " ++ toString s.line]) ++ List.replicate ((s.source.drop (s.current + 1)).count 10) ("unterminated string" ++ " on line " ++ toString s.line) } := by rw [hrec]
      rw [hflat]
      have hc : (s.source.drop s.current).count 10 = (s.source.drop (s.current + 1)).count 10 + 1 := by
        rw [hhead, List.count_cons]
        simp [h10x]
      congr 1
      rw [hc, List.replicate_succ]
      simp
    · rw [if_neg h10]
      have h10x : ¬ s.source[s.current]?.getD 0 = 10 := by
        rw [← List.getD_eq_getElem?_getD, ← hpeek]
        exact h10
      have hs2 : (s.advance).2 = { s with current := s.current + 1 } := rfl
      rw [hs2]
      have hrec := ih ({ s with current := s.current + 1 } : Scanner)
        (by show s.source.length - (s.current + 1) = k; omega)
        (by show s.current + 1 ≤ s.source.length; omega)
        (by intro m hm
            have hm2 : m < s.source.length - (s.current + 1) := hm
            show s.source.getD (s.current + 1 + m) 0 ≠ 34
            rw [harr1 m]
            exact hnq (m + 1) (by omega))
      have hflat : ({ s with current := s.current + 1 } : Scanner).stringLoop = { s with current := s.source.length, errors := s.errors ++ List.replicate ((s.source.drop (s.current + 1)).count 10) ("unterminated string" ++ " on line " ++ toString s.line) } := by rw [hrec]
      rw [hflat]
      have hc : (s.source.drop s.current).count 10 = (s.source.drop (s.current + 1)).count 10 := by
        rw [hhead, List.count_cons]
        simp [h10x]
      congr 1
      rw [hc]

/-- Claim C8: confirmed.  Consider the string sub-scan entered just
after the opening quote (`source[start] = quote`, `current = start+1`).
First conjunct — a closing quote exists, `k` bytes ahead (the first
quote at or after `current`, in bounds): the sub-scan records exactly
one `"unterminated string on line <line>"` diagnostic per newline byte
strictly between the two quotes (each newline is consumed and the scan
continues), consumes the closing quote, and emits one `StringLiteral`
token whose text is exactly the bytes strictly between the two quotes,
with no escape processing.  Second conjunct — no closing quote remains
before end-of-input: the sub-scan still records exactly one such
diagnostic per embedded newline (each consumed, the scan continuing to
end-of-input), then records the final unterminated-string diagnostic
and emits no token. -/
theorem stringLiteral_newline_diagnostics :
    (∀ s : Scanner, ∀ k : Nat, s.source.getD s.start 0 = 34 → s.current = s.start + 1 →
      (∀ m, m < k → s.source.getD (s.current + m) 0 ≠ 34) →
      s.current + k < s.source.length →
      s.source.getD (s.current + k) 0 = 34 →
      s.stringLiteral = { s with current := s.current + k + 1, errors := s.errors ++ List.replicate (((s.source.drop s.current).take k).count 10) ("unterminated string" ++ " on line " ++ toString s.line), tokens := s.tokens ++ [Token.mk TokenType.String s.line ((s.source.drop s.current).take k)] }) ∧
    (∀ s : Scanner, s.source.getD s.start 0 = 34 → s.current = s.start + 1 →
      s.current ≤ s.source.length →
      (∀ m, m < s.source.length - s.current → s.source.getD (s.current + m) 0 ≠ 34) →
      s.stringLiteral = { s with current := s.source.length, errors := s.errors ++ (List.replicate ((s.source.drop s.current).count 10) ("unterminated string" ++ " on line " ++ toString s.line) ++ ["unterminated string" ++ " on line " ++ toString s.line]) }) := by
  constructor
  · intro s k _hopen hcur hfirst hk hq
    simp only [Scanner.stringLiteral]
    rw [Scanner.stringLoop_spec k s hfirst hk hq]
    split
    · rename_i hEnd
      exfalso
      simp [Scanner.atEnd] at hEnd
      omega
    have hs2 : (({ s with current := s.current + k, errors := s.errors ++ List.replicate (((s.source.drop s.current).take k).count 10) ("unterminated string" ++ " on line " ++ toString s.line) } : Scanner).advance).2 = { s with current := s.current + k + 1, errors := s.errors ++ List.replicate (((s.source.drop s.current).take k).count 10) ("unterminated string" ++ " on line " ++ toString s.line) } := rfl
    rw [hs2]
    simp only [Scanner.addToken, Scanner.newToken, Scanner.lexeme]
    congr 2
    have harith : s.current + k + 1 - 1 - (s.start + 1) = k := by omega
    rw [harith, hcur]
  · intro s _hopen _hcur hle hnq
    simp only [Scanner.stringLiteral]
    rw [Scanner.stringLoop_noquote (s.source.length - s.current) s rfl hle hnq]
    split
    · simp only [Scanner.err]
      congr 1
      simp
    · rename_i hEnd
      exfalso
      simp [Scanner.atEnd] at hEnd

/-- Claim C8, witness: first, the sub-scan over the six bytes quote, a,
newline, b, quote, c entered after the opening quote, with the closing
quote three bytes ahead — one diagnostic for the embedded newline and a
string token whose text is the three bytes between the quotes; second,
the sub-scan over the four bytes quote, a, newline, b with no closing
quote — one diagnostic for the embedded newline, then the final
unterminated-string diagnostic, and no token. -/
theorem stringLiteral_newline_diagnostics_witness :
    ((Scanner.mk [] [34, 97, 10, 98, 34, 99] 0 1 1 []).source.getD
        (Scanner.mk [] [34, 97, 10, 98, 34, 99] 0 1 1 []).start 0 = 34 ∧
      (Scanner.mk [] [34, 97, 10, 98, 34, 99] 0 1 1 []).current =
        (Scanner.mk [] [34, 97, 10, 98, 34, 99] 0 1 1 []).start + 1 ∧
      (∀ m, m < 3 →
        (Scanner.mk [] [34, 97, 10, 98, 34, 99] 0 1 1 []).source.getD
          ((Scanner.mk [] [34, 97, 10, 98, 34, 99] 0 1 1 []).current + m) 0 ≠ 34) ∧
      (Scanner.mk [] [34, 97, 10, 98, 34, 99] 0 1 1 []).current + 3 <
        (Scanner.mk [] [34, 97, 10, 98, 34, 99] 0 1 1 []).source.length ∧
      (Scanner.mk [] [34, 97, 10, 98, 34, 99] 0 1 1 []).source.getD
        ((Scanner.mk [] [34, 97, 10, 98, 34, 99] 0 1 1 []).current + 3) 0 = 34 ∧
      (Scanner.mk [] [34, 97, 10, 98, 34, 99] 0 1 1 []).stringLiteral =
        Scanner.mk [Token.mk TokenType.String 1 [97, 10, 98]] [34, 97, 10, 98, 34, 99] 0 5 1
          ["unterminated string on line 1"]) ∧
    ((Scanner.mk [] [34, 97, 10, 98] 0 1 1 []).source.getD
        (Scanner.mk [] [34, 97, 10, 98] 0 1 1 []).start 0 = 34 ∧
      (Scanner.mk [] [34, 97, 10, 98] 0 1 1 []).current =
        (Scanner.mk [] [34, 97, 10, 98] 0 1 1 []).start + 1 ∧
      (Scanner.mk [] [34, 97, 10, 98] 0 1 1 []).current ≤
        (Scanner.mk [] [34, 97, 10, 98] 0 1 1 []).source.length ∧
      (∀ m, m < (Scanner.mk [] [34, 97, 10, 98] 0 1 1 []).source.length -
          (Scanner.mk [] [34, 97, 10, 98] 0 1 1 []).current →
        (Scanner.mk [] [34, 97, 10, 98] 0 1 1 []).source.getD
          ((Scanner.mk [] [34, 97, 10, 98] 0 1 1 []).current + m) 0 ≠ 34) ∧
      (Scanner.mk [] [34, 97, 10, 98] 0 1 1 []).stringLiteral =
        Scanner.mk [] [34, 97, 10, 98] 0 4 1
          ["unterminated string on line 1", "unterminated string on line 1"]) := by
  refine ⟨⟨by decide, by decide, by decide, by decide, by decide, ?_⟩,
    by decide, by decide, by decide, by decide, ?_⟩
  · have h := stringLiteral_newline_diagnostics.1 (Scanner.mk [] [34, 97, 10, 98, 34, 99] 0 1 1 [])
      3 (by decide) (by decide) (by decide) (by decide) (by decide)
    rw [h]
    decide
  · have h := stringLiteral_newline_diagnostics.2 (Scanner.mk [] [34, 97, 10, 98] 0 1 1 [])
      (by decide) (by decide) (by decide) (by decide)
    rw [h]
    decide
